import Mathlib

/-!
Verification of the FlatMate documentation generator (src/app.py).

The development shallowly embeds the Python source: pure string and list
functions become Lean functions, the filesystem becomes an explicit tree
value, and Python exceptions become Except / explicit result types.
-/

namespace FlatMate

/-! Generic character-list helpers mirroring Python string primitives. -/

/-- Splitting a character list on a separator, mirroring Python
str.split(sep): always returns at least one (possibly empty) group. -/
def splitChar (sep : Char) : List Char → List (List Char)
  | [] => [[]]
  | c :: rest =>
    if c = sep then [] :: splitChar sep rest
    else
      match splitChar sep rest with
      | [] => [[c]]
      | g :: gs => (c :: g) :: gs

/-- Joining character groups with a slash, mirroring the join step of
PurePosixPath.as_posix. -/
def joinSlash : List (List Char) → List Char
  | [] => []
  | [g] => g
  | g :: gs => g ++ '/' :: joinSlash gs

/-- Test that the first list leads the second (Python startswith). -/
def isLeadOf : List Char → List Char → Bool
  | [], _ => true
  | _ :: _, [] => false
  | a :: as, b :: bs => a == b && isLeadOf as bs

/-- Substring containment on character lists, mirroring the Python
membership test a in b for strings. -/
def listSubstr : List Char → List Char → Bool
  | n, [] => n.isEmpty
  | n, hay@(_ :: rest) => isLeadOf n hay || listSubstr n rest

/-- Python str.startswith, computed on character lists. -/
def pyStartsWith (s pre : String) : Bool := isLeadOf pre.toList s.toList

/-- Python str.endswith, computed on character lists. -/
def pyEndsWith (s suf : String) : Bool :=
  isLeadOf suf.toList.reverse s.toList.reverse

/-- Index of the last occurrence of a character, mirroring str.rfind. -/
def lastIndexOfChar (c : Char) : List Char → Option Nat
  | [] => none
  | a :: rest =>
    match lastIndexOfChar c rest with
    | some i => some (i + 1)
    | none => if a = c then some 0 else none

/-- Whitespace recognized by Python str.strip (ASCII fragment). -/
def isPyWhitespace (c : Char) : Bool :=
  c == ' ' || c == '\t' || c == '\n' || c == '\r' || c == '\x0b' || c == '\x0c'

/-- Python str.strip(): drop leading and trailing whitespace. -/
def pyStrip (s : String) : String :=
  String.mk (((s.toList.dropWhile isPyWhitespace).reverse.dropWhile
    isPyWhitespace).reverse)

/-! Embedding of pathlib.PurePosixPath: src/app.py line 42 normalizes every
candidate path with pathlib.Path(path).as_posix() on a POSIX host. The
parser splits on slashes, drops empty and single-dot components, and keeps
a root of one slash (or exactly two leading slashes, as POSIX allows). -/

/-- Normalization performed by pathlib.Path(path).as_posix on POSIX. -/
def normalizeChars (cs : List Char) : List Char :=
  let groups := (splitChar '/' cs).filter (fun g => !g.isEmpty && g != ['.'])
  let root : List Char :=
    if isLeadOf ['/', '/', '/'] cs then ['/']
    else if isLeadOf ['/', '/'] cs then ['/', '/']
    else if isLeadOf ['/'] cs then ['/']
    else []
  if groups.isEmpty then (if root.isEmpty then ['.'] else root)
  else root ++ joinSlash groups

/-- String form of the pathlib normalization. -/
def asPosix (path : String) : String := String.mk (normalizeChars path.toList)

/-- Last kept component of a path, mirroring PurePosixPath.name. -/
def pathlibName (file : String) : List Char :=
  ((splitChar '/' file.toList).filter (fun g => !g.isEmpty && g != ['.'])).getLastD []

/-- Extension of a path, mirroring PurePosixPath.suffix: the part of the
name from its last dot, provided that dot is neither first nor last. -/
def pathlibSuffix (file : String) : String :=
  let name := pathlibName file
  match lastIndexOfChar '.' name with
  | none => ""
  | some i => if 0 < i ∧ i + 1 < name.length then String.mk (name.drop i) else ""

/-! Embedding of fnmatch.fnmatch on a POSIX host (normcase is the
identity there, so fnmatch is fnmatchcase). The matcher is written with
explicit fuel so that it is structurally recursive; every recursive call
shrinks the combined length of pattern and subject, so the fuel supplied
by pyFnmatch is always sufficient. -/

/-- Membership of a character in a bracket-class body, with ranges a-z and
literal hyphens at the edges. -/
def memClass (c : Char) : List Char → Bool
  | [] => false
  | a :: '-' :: b :: rest => (a ≤ c && c ≤ b) || memClass c rest
  | a :: rest => (c == a) || memClass c rest

/-- Scan for the closing bracket of a character class; returns the class
body and the remainder of the pattern. -/
def scanClose : List Char → Option (List Char × List Char)
  | [] => none
  | ']' :: rest => some ([], rest)
  | c :: rest =>
    match scanClose rest with
    | some (body, after) => some (c :: body, after)
    | none => none

/-- Parse a bracket class from the text following an opening bracket, with
the fnmatch rules: a leading bang negates, and a closing bracket placed
first is a literal member. Returns none when the class never closes, in
which case fnmatch treats the opening bracket as a literal. -/
def splitClass (cs : List Char) : Option (Bool × List Char × List Char) :=
  match cs with
  | '!' :: ']' :: rest =>
    (scanClose rest).map (fun p => (true, ']' :: p.1, p.2))
  | '!' :: rest =>
    (scanClose rest).map (fun p => (true, p.1, p.2))
  | ']' :: rest =>
    (scanClose rest).map (fun p => (false, ']' :: p.1, p.2))
  | _ =>
    (scanClose cs).map (fun p => (false, p.1, p.2))

/-- Fueled shell-glob matcher: first list argument after the fuel is the
pattern, second is the subject. -/
def globMatchAux : Nat → List Char → List Char → Bool
  | 0, _, _ => false
  | _ + 1, [], s => s.isEmpty
  | fuel + 1, '*' :: ps, s =>
    globMatchAux fuel ps s ||
      (match s with
       | [] => false
       | _ :: s2 => globMatchAux fuel ('*' :: ps) s2)
  | fuel + 1, '?' :: ps, s =>
    (match s with
     | [] => false
     | _ :: s2 => globMatchAux fuel ps s2)
  | fuel + 1, '[' :: ps, s =>
    (match splitClass ps with
     | none =>
       (match s with
        | '[' :: s2 => globMatchAux fuel ps s2
        | _ => false)
     | some (neg, body, after) =>
       (match s with
        | [] => false
        | c :: s2 =>
          (if neg then !memClass c body else memClass c body) &&
            globMatchAux fuel after s2))
  | fuel + 1, p :: ps, s =>
    (match s with
     | [] => false
     | c :: s2 => p == c && globMatchAux fuel ps s2)

/-- Embedding of fnmatch.fnmatch(name, pattern) on POSIX. -/
def pyFnmatch (name pattern : String) : Bool :=
  globMatchAux (pattern.toList.length + name.toList.length + 1)
    pattern.toList name.toList

/-! Embedding of src/app.py lines 40 to 46: should_ignore. -/

/-- Embedding of should_ignore: the path is normalized with as_posix, and
a pattern excludes it when either fnmatch accepts it or some
slash-separated segment of the normalized path occurs as a substring of
the pattern text. -/
def should_ignore (path : String) (ignore_patterns : List String) : Bool :=
  let p := asPosix path
  ignore_patterns.any fun pattern =>
    pyFnmatch p pattern ||
      (splitChar '/' p.toList).any fun part => listSubstr part pattern.toList

/-! Embedding of src/app.py lines 13 to 22: get_language_extension. -/

/-- Extension table of get_language_extension, in source order. -/
def extension_table : List (String × String) :=
  [(".py", "python"), (".js", "javascript"), (".html", "html"), (".css", "css"),
   (".java", "java"), (".cpp", "cpp"), (".c", "c"), (".sh", "bash"), (".R", "r"),
   (".cs", "csharp"), (".go", "go"), (".php", "php"), (".rb", "ruby"), (".rs", "rust"),
   (".sql", "sql"), (".swift", "swift"), (".ts", "typescript"), (".vb", "vb"),
   (".xml", "xml"), (".yml", "yaml"), (".yaml", "yaml")]

/-- Embedding of get_language_extension: dictionary get with default
empty string, keyed on pathlib.Path(file).suffix. -/
def get_language_extension (file : String) : String :=
  (extension_table.lookup (pathlibSuffix file)).getD ""

/-! Embedding of src/app.py lines 25 to 37: read_gitignore. Reading the
pattern file is modelled by an explicit result value: the successful
content, the FileNotFoundError the source catches, or any other OSError,
which the source does not catch and which therefore escapes as an
exception, modelled by Except.error. -/

/-- Outcome of opening and reading the pattern file. -/
inductive ReadResult where
  | ok (content : String)
  | fileNotFound
  | otherError (msg : String)

/-- Embedding of read_gitignore: keep each stripped, non-empty line that
does not start with a hash; a missing file yields the empty pattern list;
any other error propagates. -/
def read_gitignore (res : ReadResult) : Except String (List String) :=
  match res with
  | .ok content =>
    .ok ((splitChar '\n' content.toList).filterMap fun rawLine =>
      let line := pyStrip (String.mk rawLine)
      if line ≠ "" ∧ ¬ pyStartsWith line "#" then some line else none)
  | .fileNotFound => .ok []
  | .otherError msg => .error msg

/-! Embedding of os.path.join on POSIX, restricted to two arguments as the
source uses it. -/

/-- Embedding of os.path.join(a, b) on POSIX. -/
def joinPath (a b : String) : String :=
  if pyStartsWith b "/" then b
  else if a = "" ∨ pyEndsWith a "/" then a ++ b
  else a ++ "/" ++ b

/-- Constant DEFAULT_GITIGNORE_TXT_PATH from src/app.py line 7. -/
def DEFAULT_GITIGNORE_TXT_PATH : String := "./ignore.txt"

/-- Embedding of the pattern-file lookup of create_doc_file, src/app.py
lines 104 to 106; fsExists stands for os.path.exists. -/
def gitignoreLookupPath (root_path : String) (fsExists : String → Bool) : String :=
  let gitignore_path := joinPath root_path ".gitignore"
  if fsExists gitignore_path then gitignore_path
  else joinPath root_path DEFAULT_GITIGNORE_TXT_PATH

/-! Filesystem model. A directory entry is a file with the text produced
by reading it (or the message of the exception the read raises), a
readable directory with its children in os.listdir order, or a directory
whose os.listdir raises OSError with the given message. The content of
the traversal root is an Except value: error when os.listdir fails on
the root itself. -/

/-- One entry of a directory in the modelled filesystem. -/
inductive Entry where
  | file (name : String) (content : Except String String)
  | dir (name : String) (children : List Entry)
  | baddir (name : String) (err : String)

/-- Name of an entry, as os.listdir reports it. -/
def entryName : Entry → String
  | .file n _ => n
  | .dir n _ => n
  | .baddir n _ => n

/-! Sorting, mirroring sorted(os.listdir(current_dir)) at src/app.py line
55. Python compares strings by code points; charListLt is that order. -/

/-- Code-point lexicographic order on character lists. -/
def charListLt : List Char → List Char → Bool
  | [], [] => false
  | [], _ :: _ => true
  | _ :: _, [] => false
  | a :: as, b :: bs => a < b || (a == b && charListLt as bs)

/-- Insert an entry into a name-sorted list of entries. -/
def insertByName (e : Entry) : List Entry → List Entry
  | [] => [e]
  | x :: xs =>
    if charListLt (entryName x).toList (entryName e).toList then
      x :: insertByName e xs
    else e :: x :: xs

/-- Sort entries by name, as sorted does on the os.listdir result. -/
def sortByName : List Entry → List Entry
  | [] => []
  | e :: es => insertByName e (sortByName es)

/-! Sorting every directory level of an entry. Applying recurse_folder to
a pre-sorted tree renders the same text as sorting each os.listdir result
at visit time, because sorting a level never changes deeper levels. -/
mutual
def sortTree : Entry → Entry
  | .file n c => .file n c
  | .baddir n e => .baddir n e
  | .dir n cs => .dir n (sortByName (sortTreeList cs))
def sortTreeList : List Entry → List Entry
  | [] => []
  | e :: es => sortTree e :: sortTreeList es
end

/-- Sort the root level and every directory below it. -/
def sortTreeTop : Except String (List Entry) → Except String (List Entry)
  | .error e => .error e
  | .ok es => .ok (sortByName (sortTreeList es))

/-! Embedding of src/app.py lines 49 to 69: format_directory_structure
with its inner recurse_folder. The indent marker of line 60 is the
repeated string of line 60 and 63. -/

/-- Indent marker, mirroring the Python repetition of the bar string. -/
def indentMarker : Nat → String
  | 0 => ""
  | n + 1 => "│   " ++ indentMarker n

/-! Rendering of one entry and of an entry list, mirroring the loop body
of recurse_folder: ignored entries are skipped, a readable directory is a
slash-suffixed line followed by its children one level deeper, and a
directory whose listing raises OSError is a slash-suffixed line followed
by the inline error line that the except branch of recurse_folder emits
at the deeper level. -/
mutual
def renderEntry (pats : List String) (curDir : String) (ind : Nat) : Entry → String
  | .file n _ =>
    if should_ignore (joinPath curDir n) pats then ""
    else indentMarker ind ++ "└── " ++ n ++ "\n"
  | .dir n cs =>
    if should_ignore (joinPath curDir n) pats then ""
    else
      indentMarker ind ++ "└── " ++ n ++ "/\n" ++
        renderList pats (joinPath curDir n) (ind + 1) cs
  | .baddir n e =>
    if should_ignore (joinPath curDir n) pats then ""
    else
      indentMarker ind ++ "└── " ++ n ++ "/\n" ++
        indentMarker (ind + 1) ++ "└── Error accessing folder: " ++ e ++ "\n"
def renderList (pats : List String) (curDir : String) (ind : Nat) : List Entry → String
  | [] => ""
  | e :: es => renderEntry pats curDir ind e ++ renderList pats curDir ind es
end

/-- Embedding of format_directory_structure: recurse_folder applied to
the root at indent zero; an OSError on the root itself renders only the
inline error line. -/
def format_directory_structure (directory : String)
    (c : Except String (List Entry)) (ignore_patterns : List String) : String :=
  match sortTreeTop c with
  | .error e => "└── Error accessing folder: " ++ e ++ "\n"
  | .ok es => renderList ignore_patterns directory 0 es

/-! Embedding of os.walk as used at src/app.py line 76. os.walk yields
one row per readable directory, top-down and depth-first, each row
carrying the directory path and its files; a directory whose scan fails
is skipped silently (the default onerror of os.walk ignores the error),
so it contributes no row. -/

/-- Files of one directory level, with their read outcomes. -/
def filesOfList : List Entry → List (String × Except String String)
  | [] => []
  | .file n c :: es => (n, c) :: filesOfList es
  | .dir _ _ :: es => filesOfList es
  | .baddir _ _ :: es => filesOfList es

/-! Rows contributed by one entry and by an entry list under a parent
directory path. -/
mutual
def walkEntry (parent : String) : Entry → List (String × List (String × Except String String))
  | .file _ _ => []
  | .baddir _ _ => []
  | .dir n cs =>
    (joinPath parent n, filesOfList cs) :: walkList (joinPath parent n) cs
def walkList (parent : String) : List Entry → List (String × List (String × Except String String))
  | [] => []
  | e :: es => walkEntry parent e ++ walkList parent es
end

/-- Embedding of os.walk(directory): the root row followed by the rows of
every subdirectory, or nothing when the root cannot be scanned. -/
def walkTop (directory : String) :
    Except String (List Entry) → List (String × List (String × Except String String))
  | .error _ => []
  | .ok es => (directory, filesOfList es) :: walkList directory es

/-! Embedding of src/app.py lines 72 to 96: concatenate_files_to_markdown. -/

/-- Markdown block emitted for one retained file: header line, fence
opened with the language tag (bare fence when the tag is empty), the file
text or the inline read-error message, and the closing fence. -/
def renderFileBlock (file_path : String) (file : String)
    (content : Except String String) : String :=
  let language := get_language_extension file
  "\n\n## File: " ++ file_path ++ "\n" ++
    (if language = "" then "```\n" else "```" ++ language ++ "\n") ++
    (match content with
     | .ok text => text
     | .error e => "Error reading file: " ++ e ++ "\n") ++
    "\n```"

/-- Blocks emitted for the files of one walk row, skipping ignored
paths. -/
def rowBlocks (pats : List String) (row : String × List (String × Except String String)) :
    List String :=
  row.2.filterMap fun nc =>
    let file_path := joinPath row.1 nc.1
    if should_ignore file_path pats then none
    else some (renderFileBlock file_path nc.1 nc.2)

/-- Embedding of concatenate_files_to_markdown: the concatenation of the
blocks of every walk row, in walk order. -/
def concatenate_files_to_markdown (directory : String)
    (c : Except String (List Entry)) (ignore_patterns : List String) : String :=
  String.join ((walkTop directory c).map (rowBlocks ignore_patterns)).flatten

/-! Embedding of src/app.py lines 99 to 128: create_doc_file. The
pattern-file content is supplied as a ReadResult; an error from
read_gitignore happens before the try block of the source and escapes,
so no document is produced. The write to save_path is outside the model;
the function returns the documentation text the source both writes and
returns. -/

/-- Embedding of create_doc_file. -/
def create_doc_file (res : ReadResult) (root_path : String)
    (c : Except String (List Entry)) (include_file_tree : Bool := true) :
    Except String String :=
  match read_gitignore res with
  | .error e => .error e
  | .ok ignore_patterns =>
    let file_tree := format_directory_structure root_path c ignore_patterns
    let file_tree_section :=
      "# Project File Structure\n```\n" ++ file_tree ++ "```\n\n"
    let documentation := concatenate_files_to_markdown root_path c ignore_patterns
    .ok (if include_file_tree then file_tree_section ++ documentation
         else documentation)

/-! Path collectors. These traverse the model exactly as the two renderers
do, but collect the file paths instead of building text, so that claims
about the sets of included and omitted files can be stated. -/

/-! Paths of the files that receive a file line in the tree rendering:
same traversal and same skip tests as renderEntry and renderList, with
directory lines and error lines contributing no file path. -/
mutual
def treeFilesEntry (pats : List String) (curDir : String) : Entry → List String
  | .file n _ =>
    if should_ignore (joinPath curDir n) pats then []
    else [joinPath curDir n]
  | .dir n cs =>
    if should_ignore (joinPath curDir n) pats then []
    else treeFilesList pats (joinPath curDir n) cs
  | .baddir _ _ => []
def treeFilesList (pats : List String) (curDir : String) : List Entry → List String
  | [] => []
  | e :: es => treeFilesEntry pats curDir e ++ treeFilesList pats curDir es
end

/-- File paths listed by format_directory_structure. -/
def treeFilesTop (pats : List String) (directory : String) :
    Except String (List Entry) → List String
  | .error _ => []
  | .ok es => treeFilesList pats directory (sortByName (sortTreeList es))

/-- Paths of the files of one walk row that receive a Markdown header:
the same filterMap as rowBlocks, collecting the path instead of the
block. -/
def rowFilePaths (pats : List String)
    (row : String × List (String × Except String String)) : List String :=
  row.2.filterMap fun nc =>
    let file_path := joinPath row.1 nc.1
    if should_ignore file_path pats then none else some file_path

/-- Header paths of a row list, in emission order. -/
def emittedOfRows (pats : List String) :
    List (String × List (String × Except String String)) → List String
  | [] => []
  | row :: rest => rowFilePaths pats row ++ emittedOfRows pats rest

/-- File paths that receive a header block in the output of
concatenate_files_to_markdown; each element corresponds one to one with
a block of rowBlocks. -/
def emittedFilePaths (directory : String) (c : Except String (List Entry))
    (pats : List String) : List String :=
  emittedOfRows pats (walkTop directory c)

/-! Every file path of the modelled filesystem, independent of any
pattern, with files below an unreadable directory excluded since no
traversal of the source can reach them. -/
mutual
def allFilesEntry (parent : String) : Entry → List String
  | .file n _ => [joinPath parent n]
  | .dir n cs => allFilesList (joinPath parent n) cs
  | .baddir _ _ => []
def allFilesList (parent : String) : List Entry → List String
  | [] => []
  | e :: es => allFilesEntry parent e ++ allFilesList parent es
end

/-- Every file path under the traversal root. -/
def allFilesTop (directory : String) : Except String (List Entry) → List String
  | .error _ => []
  | .ok es => allFilesList directory es

/-! Helper lemmas shared by the claim theorems. -/

theorem listSubstr_nil (l : List Char) : listSubstr [] l = true := by
  cases l <;> simp [listSubstr, isLeadOf, List.isEmpty]

theorem isLeadOf_single_iff {c : Char} {l : List Char} :
    isLeadOf [c] l = true ↔ ∃ t, l = c :: t := by
  cases l with
  | nil => simp [isLeadOf]
  | cons a t =>
    constructor
    · intro hh
      simp only [isLeadOf, Bool.and_eq_true, beq_iff_eq] at hh
      exact ⟨t, by rw [hh.1]⟩
    · rintro ⟨t2, heq⟩
      cases heq
      simp [isLeadOf]

theorem splitChar_cons_self (sep : Char) (t : List Char) :
    splitChar sep (sep :: t) = [] :: splitChar sep t := by
  simp [splitChar]

theorem toList_mk (l : List Char) : (String.mk l).toList = l := rfl

theorem asPosix_toList (path : String) :
    (asPosix path).toList = normalizeChars path.toList := rfl

theorem toList_append (a b : String) :
    (a ++ b).toList = a.toList ++ b.toList := String.data_append a b

theorem pathRoot_slash (t : List Char) :
    ∃ r, (if isLeadOf ['/', '/', '/'] ('/' :: t) then ['/']
          else if isLeadOf ['/', '/'] ('/' :: t) then ['/', '/']
          else if isLeadOf ['/'] ('/' :: t) then ['/']
          else ([] : List Char)) = '/' :: r := by
  by_cases h3 : isLeadOf ['/', '/', '/'] ('/' :: t) = true
  · exact ⟨[], by simp [h3]⟩
  · by_cases h2 : isLeadOf ['/', '/'] ('/' :: t) = true
    · exact ⟨['/'], by simp [h3, h2]⟩
    · have hx : isLeadOf ['/'] ('/' :: t) = true := by simp [isLeadOf]
      exact ⟨[], by simp [h3, h2, hx]⟩

theorem normalizeChars_slash (t : List Char) :
    ∃ t2, normalizeChars ('/' :: t) = '/' :: t2 := by
  obtain ⟨r, hr⟩ := pathRoot_slash t
  unfold normalizeChars
  rw [hr]
  by_cases hg : ((splitChar '/' ('/' :: t)).filter
      (fun g => !g.isEmpty && g != ['.'])).isEmpty = true
  · exact ⟨r, by simp [hg]⟩
  · exact ⟨r ++ joinSlash ((splitChar '/' ('/' :: t)).filter
      (fun g => !g.isEmpty && g != ['.'])), by simp [hg]⟩

theorem empty_segment_of_absolute {path : String}
    (h : pyStartsWith path "/" = true) :
    [] ∈ splitChar '/' (asPosix path).toList := by
  have hl : isLeadOf ['/'] path.toList = true := h
  obtain ⟨t, ht⟩ := isLeadOf_single_iff.mp hl
  rw [asPosix_toList, ht]
  obtain ⟨t2, h2⟩ := normalizeChars_slash t
  rw [h2, splitChar_cons_self]
  exact List.mem_cons_self _ _

theorem should_ignore_of_empty_segment {path : String} {pats : List String}
    (hne : pats ≠ [])
    (hseg : [] ∈ splitChar '/' (asPosix path).toList) :
    should_ignore path pats = true := by
  obtain ⟨p, ps, rfl⟩ : ∃ p ps, pats = p :: ps := by
    cases pats with
    | nil => exact absurd rfl hne
    | cons p ps => exact ⟨p, ps, rfl⟩
  simp only [should_ignore]
  rw [List.any_eq_true]
  refine ⟨p, List.mem_cons_self _ _, ?_⟩
  rw [Bool.or_eq_true]
  right
  rw [List.any_eq_true]
  exact ⟨[], hseg, listSubstr_nil _⟩

theorem should_ignore_absolute {path : String} {pats : List String}
    (hne : pats ≠ []) (h : pyStartsWith path "/" = true) :
    should_ignore path pats = true :=
  should_ignore_of_empty_segment hne (empty_segment_of_absolute h)

theorem mem_rowFilePaths {pats : List String} {parent fp : String}
    {files : List (String × Except String String)} :
    fp ∈ rowFilePaths pats (parent, files) ↔
      ∃ nc ∈ files, fp = joinPath parent nc.1 ∧
        should_ignore (joinPath parent nc.1) pats = false := by
  simp only [rowFilePaths, List.mem_filterMap]
  constructor
  · rintro ⟨nc, hnc, heq⟩
    by_cases hig : should_ignore (joinPath parent nc.1) pats = true
    · simp [hig] at heq
    · rw [Bool.not_eq_true] at hig
      simp [hig] at heq
      exact ⟨nc, hnc, heq.symm, hig⟩
  · rintro ⟨nc, hnc, rfl, hig⟩
    exact ⟨nc, hnc, by simp [hig]⟩

theorem emittedOfRows_append (pats : List String)
    (a b : List (String × List (String × Except String String))) :
    emittedOfRows pats (a ++ b) =
      emittedOfRows pats a ++ emittedOfRows pats b := by
  induction a with
  | nil => simp [emittedOfRows]
  | cons row rest ih => simp [emittedOfRows, ih]

theorem mem_rowFilePaths_cons {pats : List String} {parent n fp : String}
    {c : Except String String} {files : List (String × Except String String)} :
    fp ∈ rowFilePaths pats (parent, (n, c) :: files) ↔
      ((fp = joinPath parent n ∧
          should_ignore (joinPath parent n) pats = false) ∨
        fp ∈ rowFilePaths pats (parent, files)) := by
  rw [mem_rowFilePaths, mem_rowFilePaths]
  simp only [List.mem_cons]
  constructor
  · rintro ⟨nc, (rfl | hnc), heq, hig⟩
    · exact Or.inl ⟨heq, hig⟩
    · exact Or.inr ⟨nc, hnc, heq, hig⟩
  · rintro (⟨heq, hig⟩ | ⟨nc, hnc, heq, hig⟩)
    · exact ⟨(n, c), Or.inl rfl, heq, hig⟩
    · exact ⟨nc, Or.inr hnc, heq, hig⟩

theorem emittedMem_iff (pats : List String) :
    ∀ (es : List Entry) (parent fp : String),
      fp ∈ emittedOfRows pats ((parent, filesOfList es) :: walkList parent es) ↔
        (fp ∈ allFilesList parent es ∧ should_ignore fp pats = false)
  | [], parent, fp => by
    simp [emittedOfRows, rowFilePaths, walkList, filesOfList, allFilesList]
  | .file n c :: rest, parent, fp => by
    have ih := emittedMem_iff pats rest parent fp
    simp only [emittedOfRows, List.mem_append] at ih
    simp only [filesOfList, walkList, walkEntry, List.append_eq,
      List.nil_append, emittedOfRows, List.mem_append] at ih ⊢
    rw [mem_rowFilePaths_cons]
    simp only [allFilesList, allFilesEntry, List.mem_append, List.mem_singleton]
    constructor
    · rintro ((⟨rfl, hig⟩ | hR) | hE)
      · exact ⟨Or.inl rfl, hig⟩
      · have h2 := ih.mp (Or.inl hR)
        exact ⟨Or.inr h2.1, h2.2⟩
      · have h2 := ih.mp (Or.inr hE)
        exact ⟨Or.inr h2.1, h2.2⟩
    · rintro ⟨rfl | hmem, hig⟩
      · exact Or.inl (Or.inl ⟨rfl, hig⟩)
      · rcases ih.mpr ⟨hmem, hig⟩ with hR | hE
        · exact Or.inl (Or.inr hR)
        · exact Or.inr hE
  | .dir n cs :: rest, parent, fp => by
    have ihcs := emittedMem_iff pats cs (joinPath parent n) fp
    have ih := emittedMem_iff pats rest parent fp
    simp only [emittedOfRows, List.mem_append] at ihcs ih
    simp only [filesOfList, walkList, walkEntry, List.append_eq,
      List.cons_append, emittedOfRows, emittedOfRows_append,
      List.mem_append] at ih ⊢
    simp only [allFilesList, allFilesEntry, List.mem_append]
    constructor
    · rintro (hRp | (hRjn | (hEjn | hErest)))
      · have h2 := ih.mp (Or.inl hRp)
        exact ⟨Or.inr h2.1, h2.2⟩
      · have h2 := ihcs.mp (Or.inl hRjn)
        exact ⟨Or.inl h2.1, h2.2⟩
      · have h2 := ihcs.mp (Or.inr hEjn)
        exact ⟨Or.inl h2.1, h2.2⟩
      · have h2 := ih.mp (Or.inr hErest)
        exact ⟨Or.inr h2.1, h2.2⟩
    · rintro ⟨hcs | hrest, hig⟩
      · rcases ihcs.mpr ⟨hcs, hig⟩ with h2 | h2
        · exact Or.inr (Or.inl h2)
        · exact Or.inr (Or.inr (Or.inl h2))
      · rcases ih.mpr ⟨hrest, hig⟩ with h2 | h2
        · exact Or.inl h2
        · exact Or.inr (Or.inr (Or.inr h2))
  | .baddir n e :: rest, parent, fp => by
    have ih := emittedMem_iff pats rest parent fp
    simp only [emittedOfRows, List.mem_append] at ih
    simp only [filesOfList, walkList, walkEntry, List.append_eq,
      List.nil_append, emittedOfRows, List.mem_append, allFilesList,
      allFilesEntry] at ih ⊢
    exact ih
termination_by es => sizeOf es

theorem treeFilesList_subset :
    ∀ (es : List Entry) (pats : List String) (parent fp : String),
      fp ∈ treeFilesList pats parent es →
      fp ∈ allFilesList parent es ∧ should_ignore fp pats = false
  | [], _, _, _, h => by simp [treeFilesList] at h
  | .file n c :: rest, pats, parent, fp, h => by
    simp only [treeFilesList, treeFilesEntry, List.mem_append] at h
    simp only [allFilesList, allFilesEntry, List.mem_append, List.mem_singleton]
    rcases h with h | h
    · by_cases hig : should_ignore (joinPath parent n) pats = true
      · simp [hig] at h
      · rw [Bool.not_eq_true] at hig
        simp [hig] at h
        exact ⟨Or.inl h, h ▸ hig⟩
    · have h2 := treeFilesList_subset rest pats parent fp h
      exact ⟨Or.inr h2.1, h2.2⟩
  | .dir n cs :: rest, pats, parent, fp, h => by
    simp only [treeFilesList, treeFilesEntry, List.mem_append] at h
    simp only [allFilesList, allFilesEntry, List.mem_append]
    rcases h with h | h
    · by_cases hig : should_ignore (joinPath parent n) pats = true
      · simp [hig] at h
      · rw [Bool.not_eq_true] at hig
        simp [hig] at h
        have h2 := treeFilesList_subset cs pats (joinPath parent n) fp h
        exact ⟨Or.inl h2.1, h2.2⟩
    · have h2 := treeFilesList_subset rest pats parent fp h
      exact ⟨Or.inr h2.1, h2.2⟩
  | .baddir n e :: rest, pats, parent, fp, h => by
    simp only [treeFilesList, treeFilesEntry, List.nil_append] at h
    have h2 := treeFilesList_subset rest pats parent fp h
    simp only [allFilesList, allFilesEntry, List.nil_append]
    exact h2
termination_by es => sizeOf es

theorem mem_allFilesList_insertByName (e : Entry) :
    ∀ (l : List Entry) (parent fp : String),
      fp ∈ allFilesList parent (insertByName e l) ↔
        (fp ∈ allFilesEntry parent e ∨ fp ∈ allFilesList parent l) := by
  intro l
  induction l with
  | nil => intro parent fp; simp [insertByName, allFilesList]
  | cons x xs ih =>
    intro parent fp
    simp only [insertByName]
    by_cases hc : charListLt (entryName x).toList (entryName e).toList = true
    · simp only [hc, if_true, allFilesList, List.mem_append, ih]
      tauto
    · simp only [hc, if_false, allFilesList, List.mem_append]

theorem mem_allFilesList_sortByName :
    ∀ (l : List Entry) (parent fp : String),
      fp ∈ allFilesList parent (sortByName l) ↔ fp ∈ allFilesList parent l := by
  intro l
  induction l with
  | nil => intro parent fp; simp [sortByName]
  | cons x xs ih =>
    intro parent fp
    simp only [sortByName, mem_allFilesList_insertByName, allFilesList,
      List.mem_append, ih]

mutual
theorem mem_allFiles_sortTree :
    ∀ (e : Entry) (parent fp : String),
      fp ∈ allFilesEntry parent (sortTree e) ↔ fp ∈ allFilesEntry parent e
  | .file n c, parent, fp => by simp [sortTree]
  | .baddir n e, parent, fp => by simp [sortTree]
  | .dir n cs, parent, fp => by
    simp only [sortTree, allFilesEntry, mem_allFilesList_sortByName]
    exact mem_allFiles_sortTreeList cs (joinPath parent n) fp
termination_by e => sizeOf e

theorem mem_allFiles_sortTreeList :
    ∀ (es : List Entry) (parent fp : String),
      fp ∈ allFilesList parent (sortTreeList es) ↔ fp ∈ allFilesList parent es
  | [], parent, fp => by simp [sortTreeList]
  | e :: rest, parent, fp => by
    simp only [sortTreeList, allFilesList, List.mem_append,
      mem_allFiles_sortTree e parent fp,
      mem_allFiles_sortTreeList rest parent fp]
termination_by es => sizeOf es
end

theorem joinPath_slash {a : String} (b : String)
    (h : pyStartsWith a "/" = true) :
    pyStartsWith (joinPath a b) "/" = true := by
  have hl : isLeadOf ['/'] a.toList = true := h
  obtain ⟨t, ht⟩ := isLeadOf_single_iff.mp hl
  have hgoal : ∀ x y : String, pyStartsWith ((a ++ x) ++ y) "/" = true := by
    intro x y
    show isLeadOf ['/'] ((a ++ x) ++ y).toList = true
    rw [toList_append, toList_append, ht]
    simp [isLeadOf]
  have hgoal1 : ∀ x : String, pyStartsWith (a ++ x) "/" = true := by
    intro x
    show isLeadOf ['/'] (a ++ x).toList = true
    rw [toList_append, ht]
    simp [isLeadOf]
  unfold joinPath
  by_cases hb : pyStartsWith b "/" = true
  · simp [hb]
  · by_cases he : a = "" ∨ pyEndsWith a "/" = true
    · simp [hb, he, hgoal1]
    · simp only [hb, he]
      simp [hgoal]


theorem emittedFilePaths_iff (directory : String)
    (c : Except String (List Entry)) (pats : List String) (fp : String) :
    fp ∈ emittedFilePaths directory c pats ↔
      (fp ∈ allFilesTop directory c ∧ should_ignore fp pats = false) := by
  cases c with
  | error e => simp [emittedFilePaths, walkTop, emittedOfRows, allFilesTop]
  | ok es => exact emittedMem_iff pats es directory fp

theorem treeFilesTop_subset {pats : List String} {directory fp : String}
    {c : Except String (List Entry)}
    (h : fp ∈ treeFilesTop pats directory c) :
    fp ∈ allFilesTop directory c ∧ should_ignore fp pats = false := by
  cases c with
  | error e => simp [treeFilesTop] at h
  | ok es =>
    have h2 := treeFilesList_subset (sortByName (sortTreeList es)) pats directory fp h
    rw [mem_allFilesList_sortByName, mem_allFiles_sortTreeList] at h2
    exact h2

theorem allFilesList_slash :
    ∀ (es : List Entry) (parent fp : String),
      pyStartsWith parent "/" = true →
      fp ∈ allFilesList parent es → pyStartsWith fp "/" = true
  | [], _, _, _, hm => by simp [allFilesList] at hm
  | .file n c :: rest, parent, fp, hp, hm => by
    simp only [allFilesList, allFilesEntry, List.mem_append,
      List.mem_singleton] at hm
    rcases hm with rfl | hm
    · exact joinPath_slash n hp
    · exact allFilesList_slash rest parent fp hp hm
  | .dir n cs :: rest, parent, fp, hp, hm => by
    simp only [allFilesList, allFilesEntry, List.mem_append] at hm
    rcases hm with hm | hm
    · exact allFilesList_slash cs (joinPath parent n) fp (joinPath_slash n hp) hm
    · exact allFilesList_slash rest parent fp hp hm
  | .baddir n e :: rest, parent, fp, hp, hm => by
    simp only [allFilesList, allFilesEntry, List.nil_append] at hm
    exact allFilesList_slash rest parent fp hp hm
termination_by es => sizeOf es

theorem allFilesTop_slash {directory fp : String} {c : Except String (List Entry)}
    (h : pyStartsWith directory "/" = true) (hm : fp ∈ allFilesTop directory c) :
    pyStartsWith fp "/" = true := by
  cases c with
  | error e => simp [allFilesTop] at hm
  | ok es => exact allFilesList_slash es directory fp h hm

theorem emittedFilePaths_nil_of_absolute {directory : String}
    {c : Except String (List Entry)} {pats : List String}
    (hne : pats ≠ []) (habs : pyStartsWith directory "/" = true) :
    emittedFilePaths directory c pats = [] := by
  rw [List.eq_nil_iff_forall_not_mem]
  intro fp hmem
  have h2 := (emittedFilePaths_iff directory c pats fp).mp hmem
  have h3 := should_ignore_absolute hne (allFilesTop_slash habs h2.1)
  rw [h2.2] at h3
  exact Bool.false_ne_true h3


/-! Claim theorems. Each theorem settles one claim of the specification
review; amended statements and counterexamples are marked as such. -/

/-- Claim C1, counterexample. The claim states that the sets of files
omitted from the tree section and from the content section coincide,
and in particular that a file absent from the tree because an ancestor
directory matched is also absent from the content. With pattern *.log and
a directory x.log holding the file readme, the path r/x.log/readme is a
file under the root that the tree omits (its ancestor directory r/x.log
matches *.log and is pruned) yet the content emits (the file path itself
matches nothing), refuting the claim. -/
theorem C1_counterexample :
    "r/x.log/readme" ∈
        allFilesTop "r" (.ok [.dir "x.log" [.file "readme" (.ok "hi")]]) ∧
    "r/x.log/readme" ∉
        treeFilesTop ["*.log"] "r"
          (.ok [.dir "x.log" [.file "readme" (.ok "hi")]]) ∧
    "r/x.log/readme" ∈
        emittedFilePaths "r" (.ok [.dir "x.log" [.file "readme" (.ok "hi")]])
          ["*.log"] := by
  refine ⟨by decide, by decide, by decide⟩

/-- Claim C1, amended. The two omission sets agree in one direction
only: every file the tree lists is also emitted by the content pass, so
every file omitted from the content section is omitted from the tree
section; the converse fails as the counterexample shows. -/
theorem C1_tree_subset_content {pats : List String} {directory fp : String}
    {c : Except String (List Entry)}
    (h : fp ∈ treeFilesTop pats directory c) :
    fp ∈ emittedFilePaths directory c pats :=
  (emittedFilePaths_iff directory c pats fp).mpr (treeFilesTop_subset h)

/-- Witness for the amended claim C1 at a concrete input. -/
theorem C1_tree_subset_content_witness :
    "r/a.txt" ∈ treeFilesTop [] "r" (.ok [.file "a.txt" (.ok "x")]) ∧
    "r/a.txt" ∈ emittedFilePaths "r" (.ok [.file "a.txt" (.ok "x")]) [] :=
  ⟨by decide, C1_tree_subset_content (by decide)⟩

/-- Claim C2. The file paths that receive a header block in the content
output are exactly the files under the root whose path does not satisfy
should_ignore: no matched file is emitted and every unmatched file is
emitted. The second conjunct checks the scenario of the specification:
with pattern *.log and files a.log and a.txt, the output holds a header
for a.txt and none for a.log. -/
theorem C2_content_exactly_unmatched :
    (∀ (directory : String) (c : Except String (List Entry))
        (pats : List String) (fp : String),
      fp ∈ emittedFilePaths directory c pats ↔
        (fp ∈ allFilesTop directory c ∧ should_ignore fp pats = false)) ∧
    concatenate_files_to_markdown "r"
        (.ok [.file "a.log" (.ok "L"), .file "a.txt" (.ok "T")]) ["*.log"] =
      "\n\n## File: r/a.txt\n```\nT\n```" :=
  ⟨emittedFilePaths_iff, by decide⟩

/-- Claim C3. should_ignore holds exactly when some pattern of the set
either fnmatch-accepts the normalized path or textually contains, as a
substring, one of the slash-separated segments of the normalized path. -/
theorem C3_should_ignore_characterization (path : String) (pats : List String) :
    should_ignore path pats = true ↔
      ∃ pattern ∈ pats,
        pyFnmatch (asPosix path) pattern = true ∨
          ∃ part ∈ splitChar '/' (asPosix path).toList,
            listSubstr part pattern.toList = true := by
  simp [should_ignore, List.any_eq_true, Bool.or_eq_true]

/-- Claim C4. A missing pattern file yields the empty pattern set without
a fatal error, and the empty pattern set ignores nothing. -/
theorem C4_missing_pattern_file (path : String) :
    read_gitignore .fileNotFound = .ok [] ∧ should_ignore path [] = false :=
  ⟨rfl, rfl⟩

/-- Claim C5, counterexample. The claim places the fallback pattern file
at the fixed path ./ignore.txt relative to the working directory; the
code joins the fallback to the project directory instead, so for project
directory proj the fallback is proj/./ignore.txt, not ./ignore.txt. -/
theorem C5_counterexample :
    gitignoreLookupPath "proj" (fun _ => false) = "proj/./ignore.txt" ∧
    gitignoreLookupPath "proj" (fun _ => false) ≠ "./ignore.txt" := by
  refine ⟨by decide, by decide⟩

/-- Claim C5, amended. The pattern file is looked up first at
project_dir slash .gitignore; when that file is absent the fallback is
os.path.join(project_dir, "./ignore.txt"), that is, the fixed relative
path resolved against the project directory, not against the process
working directory. -/
theorem C5_lookup_paths (root_path : String) (fsExists : String → Bool) :
    (fsExists (joinPath root_path ".gitignore") = true →
      gitignoreLookupPath root_path fsExists =
        joinPath root_path ".gitignore") ∧
    (fsExists (joinPath root_path ".gitignore") = false →
      gitignoreLookupPath root_path fsExists =
        joinPath root_path DEFAULT_GITIGNORE_TXT_PATH) := by
  constructor <;> intro h <;> simp [gitignoreLookupPath, h]

/-- Witness for the amended claim C5 at a concrete input. -/
theorem C5_lookup_paths_witness :
    gitignoreLookupPath "proj" (fun _ => false) =
      joinPath "proj" DEFAULT_GITIGNORE_TXT_PATH :=
  (C5_lookup_paths "proj" (fun _ => false)).2 rfl

/-- Claim C6. The fence language tag is the fixed extension table applied
to the file extension, with unrecognized or missing extensions giving an
empty tag and hence a bare fence: main.rs opens a rust-tagged fence and
data.bin a bare one. -/
theorem C6_language_tags :
    (∀ file : String, get_language_extension file =
      (extension_table.lookup (pathlibSuffix file)).getD "") ∧
    get_language_extension "main.rs" = "rust" ∧
    get_language_extension "data.bin" = "" ∧
    renderFileBlock "r/main.rs" "main.rs" (.ok "code") =
      "\n\n## File: r/main.rs\n```rust\ncode\n```" ∧
    renderFileBlock "r/data.bin" "data.bin" (.ok "bytes") =
      "\n\n## File: r/data.bin\n```\nbytes\n```" :=
  ⟨fun _ => rfl, by decide, by decide, by decide, by decide⟩

/-- Claim C7. A directory whose listing fails is rendered as its
directory line followed by a single inline error line one level deeper,
and the remaining siblings are still rendered; the second conjunct
checks the scenario of a root holding one readable and one unreadable
subdirectory, both listed, the error line standing in for the unreadable
children. The embedding is total, so no exception escapes. -/
theorem C7_unreadable_dir_error_line
    (pats : List String) (curDir n err : String) (ind : Nat)
    (rest : List Entry)
    (h : should_ignore (joinPath curDir n) pats = false) :
    renderList pats curDir ind (.baddir n err :: rest) =
      indentMarker ind ++ "└── " ++ n ++ "/\n" ++
        indentMarker (ind + 1) ++ "└── Error accessing folder: " ++ err ++
        "\n" ++ renderList pats curDir ind rest ∧
    format_directory_structure "r"
        (.ok [.dir "alpha" [.file "a.txt" (.ok "x")],
              .baddir "beta" "Permission denied"]) [] =
      "└── alpha/\n│   └── a.txt\n└── beta/\n│   └── Error accessing folder: Permission denied\n" := by
  constructor
  · simp [renderList, renderEntry, h]
  · decide

/-- Witness for claim C7 at a concrete input. -/
theorem C7_unreadable_dir_error_line_witness :
    renderList [] "r" 0 [.baddir "beta" "boom"] =
      indentMarker 0 ++ "└── " ++ "beta" ++ "/\n" ++
        indentMarker (0 + 1) ++ "└── Error accessing folder: " ++ "boom" ++
        "\n" ++ renderList [] "r" 0 [] :=
  (C7_unreadable_dir_error_line [] "r" "beta" "boom" 0 [] (by decide)).1

/-- Claim C8. For an empty root directory and an empty pattern set the
composed document with the tree included is exactly the tree header with
fences around an empty body, and no file header occurs in it. -/
theorem C8_empty_dir_document :
    create_doc_file (.ok "") "r" (.ok []) true =
      .ok "# Project File Structure\n```\n```\n\n" ∧
    listSubstr "## File:".toList
      "# Project File Structure\n```\n```\n\n".toList = false := by
  refine ⟨rfl, by decide⟩

/-- Claim C9, counterexample. The claim asserts that any path with a
trailing or doubled slash gains an empty segment and is therefore
matched by every non-empty pattern set; but the pathlib normalization
removes trailing and doubled slashes before splitting, so such paths
match nothing here. -/
theorem C9_counterexample :
    should_ignore "a/b/" ["xyz"] = false ∧
    should_ignore "a//b" ["xyz"] = false ∧
    (["xyz"] : List String) ≠ [] := by
  refine ⟨by decide, by decide, by decide⟩

/-- Claim C9, amended. When the normalized form of a path retains an
empty slash-separated segment, the empty string is a substring of every
pattern, so any non-empty pattern set matches the path. Absolute paths
are exactly the surviving case: their normalized form starts with a
slash, so they are matched by any non-empty pattern set, and running
the tool on an absolute root with a non-empty pattern set emits no file
at all. Trailing and doubled slashes are removed by normalization and do
not trigger this. -/
theorem C9_empty_segment_and_absolute_paths :
    (∀ (path : String) (pats : List String), pats ≠ [] →
      [] ∈ splitChar '/' (asPosix path).toList →
      should_ignore path pats = true) ∧
    (∀ (path : String) (pats : List String), pats ≠ [] →
      pyStartsWith path "/" = true →
      should_ignore path pats = true) ∧
    (∀ (directory : String) (c : Except String (List Entry))
        (pats : List String), pats ≠ [] →
      pyStartsWith directory "/" = true →
      emittedFilePaths directory c pats = []) :=
  ⟨fun _ _ hne hseg => should_ignore_of_empty_segment hne hseg,
   fun _ _ hne habs => should_ignore_absolute hne habs,
   fun _ _ _ hne habs => emittedFilePaths_nil_of_absolute hne habs⟩

/-- Witness for the amended claim C9 at concrete inputs. -/
theorem C9_empty_segment_witness :
    should_ignore "/srv/app/main.py" ["build"] = true ∧
    emittedFilePaths "/srv" (.ok [.file "a.txt" (.ok "x")]) ["build"] = [] :=
  ⟨C9_empty_segment_and_absolute_paths.2.1 "/srv/app/main.py" ["build"]
      (by decide) (by decide),
   C9_empty_segment_and_absolute_paths.2.2 "/srv"
      (.ok [.file "a.txt" (.ok "x")]) ["build"] (by decide) (by decide)⟩

/-- Claim C10. A pattern-file read failure other than file-not-found is
not swallowed: read_gitignore propagates the error, and since the
pattern loading of create_doc_file happens before any rendering, the run
aborts with that error and produces no document. -/
theorem C10_read_error_propagates (msg root_path : String)
    (c : Except String (List Entry)) (include_file_tree : Bool) :
    read_gitignore (.otherError msg) = .error msg ∧
    create_doc_file (.otherError msg) root_path c include_file_tree =
      .error msg :=
  ⟨rfl, rfl⟩

end FlatMate
